import Mathlib

/-
  Verification development for the horizons_wrapper repository
  (src/horizons_wrapper/ephem_subs.py).

  The Python module is shallowly embedded below:
  - instants (datetime values) are modelled as integers counting
    microseconds from 0001-01-01 00:00, the resolution of datetime;
  - timedelta values are modelled as signed integer microsecond counts;
  - astropy tables are modelled as ordered lists of named columns;
  - the remote HORIZONS service, numpy sqrt, math.radians and the
    calc_moon_sep helper (defined elsewhere in the repository) are
    modelled as explicit function parameters;
  - raised exceptions are modelled with Except.
-/

namespace Horizons

/-! ## Python string primitives

The Lean core String functions (split, map, toNat?) are defined by
well-founded recursion on byte positions and do not reduce inside the
kernel, so the Python string operations are embedded here structurally
over the underlying character lists. -/

/-- Split a character list at every separator character, keeping empty
pieces, as Python s.split(sep) does for a one-character sep. -/
def splitOnPred (p : Char → Bool) : List Char → List (List Char)
  | [] => [[]]
  | c :: rest =>
    let r := splitOnPred p rest
    if p c then
      [] :: r
    else
      match r with
      | t :: ts => (c :: t) :: ts
      | [] => [[c]]

/-- Whitespace characters recognised by the Python str.split() default. -/
def isPySpace (c : Char) : Bool :=
  c = ' ' || c = '\t' || c = '\n' || c = '\r' || c = '\x0b' || c = '\x0c'

/-- Python line.split(): split on runs of whitespace, dropping empty pieces. -/
def pySplit (s : String) : List String :=
  ((splitOnPred isPySpace s.data).map String.mk).filter (fun t => t ≠ "")

/-- Python payload.split(backslash-n): split at newline characters,
keeping empty pieces. -/
def pySplitNl (s : String) : List String :=
  (splitOnPred (fun c => c = '\n') s.data).map String.mk

/-- Python quantities.split(comma). -/
def pySplitComma (s : String) : List String :=
  (splitOnPred (fun c => c = ',') s.data).map String.mk

/-- Python s.isdigit() restricted to ASCII data: nonempty and all digits. -/
def pyIsDigit (s : String) : Bool :=
  !s.data.isEmpty && s.data.all Char.isDigit

/-- Python s.upper() restricted to ASCII data. -/
def pyUpper (s : String) : String :=
  String.mk (s.data.map Char.toUpper)

/-- Python needle in hay, substring containment. -/
def containsSub (needle hay : String) : Bool :=
  (List.range (hay.data.length + 1)).any
    (fun i => needle.data.isPrefixOf (hay.data.drop i))

/-- Decimal value of a digit-character list, most significant first. -/
def digitsToNat : List Char → Nat → Nat
  | [], acc => acc
  | c :: cs, acc => digitsToNat cs (acc * 10 + (c.toNat - 48))

/-- Python int(s) for a digit string (leading zeros allowed). -/
def pyInt (s : String) : Nat := digitsToNat s.data 0

/-! ## Calendar arithmetic (proleptic Gregorian, as in datetime) -/

/-- Number of days in the years strictly before year y (datetime.toordinal
minus one for January 1 of year y). -/
def daysBeforeYear (y : Nat) : Nat :=
  (y - 1) * 365 + (y - 1) / 4 - (y - 1) / 100 + (y - 1) / 400

/-- Gregorian leap-year predicate used by datetime. -/
def isLeapYear (y : Nat) : Bool :=
  (y % 4 = 0 && y % 100 ≠ 0) || y % 400 = 0

/-- Days in month m of year y (months numbered 1..12). -/
def daysInMonth (y m : Nat) : Nat :=
  match m with
  | 1 => 31 | 2 => if isLeapYear y then 29 else 28 | 3 => 31
  | 4 => 30 | 5 => 31 | 6 => 30 | 7 => 31 | 8 => 31
  | 9 => 30 | 10 => 31 | 11 => 30 | 12 => 31 | _ => 0

/-- Days in year y strictly before month m. -/
def daysBeforeMonth (y m : Nat) : Nat :=
  (List.range (m - 1)).foldl (fun a i => a + daysInMonth y (i + 1)) 0

/-- Microseconds from 0001-01-01 00:00 to year-month-day hour:minute. -/
def dateToMicros (y m d hh mm : Nat) : Int :=
  (((daysBeforeYear y + daysBeforeMonth y m + (d - 1)) * 86400
      + hh * 3600 + mm * 60 : Nat) : Int) * 1000000

/-- Microseconds from 0001-01-01 00:00 to January 1 of year y, the value
datetime.strptime(year_string, "%Y") denotes. -/
def yearStartMicros (y : Nat) : Int := dateToMicros y 1 1 0 0

/-- timedelta.max (999999999 days, 23:59:59.999999) in microseconds. -/
def timedeltaMaxMicros : Int := 999999999 * 86400000000 + 86399999999

/-- datetime.strptime(s, "%Y") on an all-digit string: CPython matches %Y
with exactly four digits and the datetime constructor rejects year 0. -/
def parseYear (s : String) : Option Nat :=
  if s.data.length = 4 && s.data.all Char.isDigit && s ≠ "0000" then
    some (pyInt s)
  else
    none

/-! ## determine_horizons_id (ephem_subs.py lines 146-166) -/

/-- The qualifying test of ephem_subs.py lines 156-159: at least five
whitespace-separated chunks, the first two all digits, the second parsing
as a %Y year. Yields the candidate id (int of chunk 0) and its year. -/
def lineCandidate (line : String) : Option (Nat × Nat) :=
  match pySplit line with
  | c0 :: c1 :: rest =>
    if 3 ≤ rest.length && pyIsDigit c0 && pyIsDigit c1 then
      match parseYear c1 with
      | some y => some (pyInt c0, y)
      | none => none
    else
      none
  | _ => none

/-- Loop state of determine_horizons_id: the running timespan (signed, as
in the source where now - epoch_yr is stored without abs) and the current
best id. -/
structure DisambState where
  timespan : Int
  horizonsId : Option Nat
deriving DecidableEq

/-- One iteration of the loop of ephem_subs.py lines 155-165.  A line whose
year fails to parse is skipped (the source logs a warning and continues);
a qualifying line is selected when the absolute distance from now is at
most the stored (signed) timespan. -/
def disambStep (now : Int) (st : DisambState) (line : String) : DisambState :=
  match lineCandidate line with
  | none => st
  | some c =>
    if |now - yearStartMicros c.2| ≤ st.timespan then
      ⟨now - yearStartMicros c.2, some c.1⟩
    else
      st

/-- determine_horizons_id(lines, now): fold the loop over the lines with
timespan initialised to timedelta.max and no id. -/
def determine_horizons_id (lines : List String) (now : Int) : Option Nat :=
  (lines.foldl (disambStep now) ⟨timedeltaMaxMicros, none⟩).horizonsId

/-- One step of the specification-side selector: keep whichever of the
current best and the next candidate is nearer to now, the next one
winning ties. -/
def lastNearestStep (now : Int) (best : Option (Nat × Nat)) (c : Nat × Nat) :
    Option (Nat × Nat) :=
  match best with
  | none => some c
  | some b =>
    if |now - yearStartMicros c.2| ≤ |now - yearStartMicros b.2| then
      some c
    else
      some b

/-- Specification-side selector: the last candidate of the list whose year
start is nearest to now (comparison by non-strict inequality, so a later
candidate at equal distance replaces an earlier one). -/
def lastNearest (now : Int) (cands : List (Nat × Nat)) : Option (Nat × Nat) :=
  cands.foldl (lastNearestStep now) none

/-! ## get_mountlimits (ephem_subs.py lines 169-190) -/

/-- get_mountlimits(site_code_or_name): mount limits in degrees, returned
as (ha_neg_limit, ha_pos_limit, alt_limit).  Numeric values are modelled
as exact rationals. -/
def get_mountlimits (siteCodeOrName : String) : ℚ × ℚ × ℚ :=
  let site := pyUpper siteCodeOrName
  let haPosLimit : ℚ := 12.0 * 15.0
  let haNegLimit : ℚ := -(12.0 * 15.0)
  let altLimit : ℚ := 25.0
  if containsSub "-1M0A" site
      || ["V37", "V39", "W85", "W86", "W87", "K91", "K92", "K93", "Q63",
          "Q64"].contains site then
    (-(4.5 * 15.0), 4.5 * 15.0, 30.0)
  else if containsSub "-AQWA" site || containsSub "-AQWB" site
      || containsSub "CLMA-0M4" site
      || ["Z17", "Z21", "Q58", "Q59", "T03", "T04", "W89", "W79", "V38",
          "L09"].contains site then
    (-(4.5 * 15.0), 4.46 * 15.0, 15.0)
  else
    (haNegLimit, haPosLimit, altLimit)

/-- Specification-side predicate: the site (case-insensitively) is in the
1-meter class, by fragment or by site-code membership. -/
def isOneMeterClass (s : String) : Bool :=
  containsSub "-1M0A" (pyUpper s)
    || ["V37", "V39", "W85", "W86", "W87", "K91", "K92", "K93", "Q63",
        "Q64"].contains (pyUpper s)

/-- Specification-side predicate: the site (case-insensitively) is in the
0.4-meter class, by fragment or by site-code membership. -/
def isPointFourClass (s : String) : Bool :=
  containsSub "-AQWA" (pyUpper s) || containsSub "-AQWB" (pyUpper s)
    || containsSub "CLMA-0M4" (pyUpper s)
    || ["Z17", "Z21", "Q58", "Q59", "T03", "T04", "W89", "W79", "V38",
        "L09"].contains (pyUpper s)

/-! ## Quantity-set augmentation (ephem_subs.py lines 79-81) -/

/-- The augmentation of the quantities string: append ",3" unless the
substring "3," already occurs somewhere in the string. -/
def buildQuantities (quantities : String) : String :=
  if containsSub "3," quantities then quantities else quantities ++ ",3"

/-- The comma-separated codes of a quantities string as sent to HORIZONS. -/
def sentCodes (quantities : String) : List String :=
  pySplitComma (buildQuantities quantities)

/-! ## strptime for the "%Y-%b-%d %H:%M" format used by
convert_horizons_table (ephem_subs.py line 123).  CPython strptime
compiles the format to a regular expression; the matchers below follow
the alternation order of its %Y, %b, %d, %H and %M patterns, and the
datetime constructor then validates the day against the month length. -/

/-- Exactly four digits, as the %Y pattern requires. -/
def matchYear : List Char → Option (Nat × List Char)
  | a :: b :: c :: d :: rest =>
    if [a, b, c, d].all Char.isDigit then
      some (digitsToNat [a, b, c, d] 0, rest)
    else
      none
  | _ => none

/-- A literal character of the format string. -/
def matchLit (ch : Char) : List Char → Option (List Char)
  | c :: rest => if c = ch then some rest else none
  | [] => none

/-- Month number of a lowercased three-letter abbreviation (%b). -/
def monthNum (s : String) : Option Nat :=
  if s = "jan" then some 1 else if s = "feb" then some 2
  else if s = "mar" then some 3 else if s = "apr" then some 4
  else if s = "may" then some 5 else if s = "jun" then some 6
  else if s = "jul" then some 7 else if s = "aug" then some 8
  else if s = "sep" then some 9 else if s = "oct" then some 10
  else if s = "nov" then some 11 else if s = "dec" then some 12
  else none

/-- The %b pattern: three letters, case-insensitive month abbreviation. -/
def matchMonthAbbrev : List Char → Option (Nat × List Char)
  | a :: b :: c :: rest =>
    match monthNum (String.mk ([a, b, c].map Char.toLower)) with
    | some m => some (m, rest)
    | none => none
  | _ => none

/-- digit value of an ASCII digit character. -/
def digitVal (c : Char) : Nat := c.toNat - 48

/-- The %d day pattern, alternation 3[01], [12]d, 0[1-9], [1-9]. -/
def matchDay : List Char → Option (Nat × List Char)
  | c1 :: c2 :: rest =>
    if c1 = '3' && (c2 = '0' || c2 = '1') then
      some (30 + digitVal c2, rest)
    else if (c1 = '1' || c1 = '2') && c2.isDigit then
      some (digitVal c1 * 10 + digitVal c2, rest)
    else if c1 = '0' && c2.isDigit && c2 ≠ '0' then
      some (digitVal c2, rest)
    else if c1.isDigit && c1 ≠ '0' then
      some (digitVal c1, c2 :: rest)
    else
      none
  | [c1] =>
    if c1.isDigit && c1 ≠ '0' then some (digitVal c1, []) else none
  | [] => none

/-- The %H hour pattern, alternation 2[0-3], [0-1]d, d. -/
def matchHour : List Char → Option (Nat × List Char)
  | c1 :: c2 :: rest =>
    if c1 = '2' && (c2 = '0' || c2 = '1' || c2 = '2' || c2 = '3') then
      some (20 + digitVal c2, rest)
    else if (c1 = '0' || c1 = '1') && c2.isDigit then
      some (digitVal c1 * 10 + digitVal c2, rest)
    else if c1.isDigit then
      some (digitVal c1, c2 :: rest)
    else
      none
  | [c1] => if c1.isDigit then some (digitVal c1, []) else none
  | [] => none

/-- The %M minute pattern, alternation [0-5]d, d. -/
def matchMinute : List Char → Option (Nat × List Char)
  | c1 :: c2 :: rest =>
    if c1.isDigit && digitVal c1 ≤ 5 && c2.isDigit then
      some (digitVal c1 * 10 + digitVal c2, rest)
    else if c1.isDigit then
      some (digitVal c1, c2 :: rest)
    else
      none
  | [c1] => if c1.isDigit then some (digitVal c1, []) else none
  | [] => none

/-- datetime.strptime(s, "%Y-%b-%d %H:%M") as a microsecond instant; none
when the string is malformed (the source raises ValueError there). -/
def parseDatetimeStr (s : String) : Option Int := do
  let (y, r1) ← matchYear s.data
  let r2 ← matchLit '-' r1
  let (mo, r3) ← matchMonthAbbrev r2
  let r4 ← matchLit '-' r3
  let (d, r5) ← matchDay r4
  let r6 ← matchLit ' ' r5
  let (hh, r7) ← matchHour r6
  let r8 ← matchLit ':' r7
  let (mi, r9) ← matchMinute r8
  if r9 = [] && 1 ≤ y && d ≤ daysInMonth y mo then
    some (dateToMicros y mo d hh mi)
  else
    none

/-! ## Table model

An astropy table is modelled as an ordered list of named columns; a cell
is a string, a numeric value of an abstract numeric type Q, or a Time
instant.  The numeric type is kept abstract because every numeric
operation applied to table cells in the source (numpy sqrt, math.radians,
the astropy unit-ratio scaling, calc_moon_sep) comes from a third-party
library; those operations are grouped in ExternalFns. -/

/-- A table cell. -/
inductive MVal (Q : Type) where
  | s : String → MVal Q
  | q : Q → MVal Q
  | t : Int → MVal Q
deriving DecidableEq

/-- A named table column with an optional unit string. -/
structure MCol (Q : Type) where
  name : String
  unit : Option String
  vals : List (MVal Q)
deriving DecidableEq

/-- An astropy table: ordered columns. -/
structure Table (Q : Type) where
  cols : List (MCol Q)
deriving DecidableEq

/-- Exceptions raised inside convert_horizons_table: ValueError (with the
exception args), KeyError from a missing column, TypeError from a cell of
the wrong kind.  The astropy UnitConversionError derives from ValueError
and is modelled as one. -/
inductive ConvErr where
  | valueError : List String → ConvErr
  | keyError : ConvErr
  | typeError : ConvErr
deriving DecidableEq

instance {ε α : Type} [DecidableEq ε] [DecidableEq α] :
    DecidableEq (Except ε α) := fun x y =>
  match x, y with
  | .ok a, .ok b =>
    if h : a = b then .isTrue (by rw [h])
    else .isFalse (by intro hh; cases hh; exact h rfl)
  | .error a, .error b =>
    if h : a = b then .isTrue (by rw [h])
    else .isFalse (by intro hh; cases hh; exact h rfl)
  | .ok _, .error _ => .isFalse (by intro hh; cases hh)
  | .error _, .ok _ => .isFalse (by intro hh; cases hh)

/-- The third-party numeric collaborators of the module: numpy sqrt,
math.radians, the astropy unit-ratio scaling of convert_unit_to, and
calc_moon_sep.  calc_moon_sep is called by convert_horizons_table but
defined elsewhere in the repository; modelled from the spec: given a
timestamp and the target RA/Dec in radians (for a fixed geocentric
reference point), it returns the Moon altitude, the Moon-target angular
separation in degrees, and the illuminated fraction. -/
structure ExternalFns (Q : Type) where
  sq : Q → Q
  rad : Q → Q
  rateScale : Option String → String → Option (Q → Q)
  moon : Int → Q → Q → Q × Q × Q

/-- Column lookup by name, as astropy bracket access. -/
def Table.getCol {Q : Type} (t : Table Q) (n : String) : Option (MCol Q) :=
  t.cols.find? (fun c => c.name = n)

/-- Python n in t.colnames. -/
def Table.hasCol {Q : Type} (t : Table Q) (n : String) : Bool :=
  t.cols.any (fun c => c.name = n)

/-- astropy add_column with default index: append at the end; a duplicate
name raises ValueError. -/
def Table.addCol {Q : Type} (t : Table Q) (c : MCol Q) :
    Except ConvErr (Table Q) :=
  if t.hasCol c.name then
    .error (.valueError ["Duplicate column name"])
  else
    .ok ⟨t.cols ++ [c]⟩

/-- All cells as numeric values; a cell of another kind raises TypeError. -/
def extractQ {Q : Type} : List (MVal Q) → Except ConvErr (List Q)
  | [] => .ok []
  | .q x :: rest => (extractQ rest).map (fun l => x :: l)
  | _ :: _ => .error .typeError

/-- All cells as Time instants; a cell of another kind raises TypeError. -/
def extractT {Q : Type} : List (MVal Q) → Except ConvErr (List Int)
  | [] => .ok []
  | .t x :: rest => (extractT rest).map (fun l => x :: l)
  | _ :: _ => .error .typeError

/-- The list comprehension of ephem_subs.py line 123: parse every cell of
the datetime_str column with strptime; the first malformed string raises
ValueError, a non-string cell raises TypeError. -/
def parseDates {Q : Type} : List (MVal Q) → Except ConvErr (List Int)
  | [] => .ok []
  | .s d :: rest =>
    match parseDatetimeStr d with
    | some micros => (parseDates rest).map (fun l => micros :: l)
    | none => .error (.valueError ["time data does not match format"])
  | _ :: _ => .error .typeError

/-- Map a numeric function over the numeric cells of a column. -/
def mapQ {Q : Type} (f : Q → Q) : MVal Q → MVal Q
  | .q x => .q (f x)
  | v => v

/-- Whether a cell is a string. -/
def MVal.isStr {Q : Type} : MVal Q → Bool
  | .s _ => true
  | _ => false

/-- Elementwise combination of three lists. -/
def zip3With {α β γ δ : Type} (f : α → β → γ → δ) :
    List α → List β → List γ → List δ
  | a :: as, b :: bs, c :: cs => f a b c :: zip3With f as bs cs
  | _, _, _ => []

/-- The in-place effect of convert_unit_to on the column named n: scale
its numeric cells and set the new unit; other columns are untouched. -/
def updateCol {Q : Type} (n target : String) (f : Q → Q) (c2 : MCol Q) :
    MCol Q :=
  if c2.name = n then
    { name := c2.name, unit := some target, vals := c2.vals.map (mapQ f) }
  else
    c2

/-- astropy column.convert_unit_to(target): look up the unit ratio, check
the data is numeric, and scale the column in place, setting the new unit.
A missing column raises KeyError; an impossible conversion raises
UnitConversionError (a ValueError). -/
def Table.convertColUnit {Q : Type} (ext : ExternalFns Q) (t : Table Q)
    (n target : String) : Except ConvErr (Table Q) :=
  match t.getCol n with
  | none => .error .keyError
  | some c =>
    match ext.rateScale c.unit target with
    | none => .error (.valueError ["UnitConversionError"])
    | some f =>
      match extractQ c.vals with
      | .error e => .error e
      | .ok _ => .ok ⟨t.cols.map (updateCol n target f)⟩

/-- Lines 124-125 of ephem_subs.py: add the datetime column (the parsed
Time instants) when no column of that name exists yet. -/
def addDatetime {Q : Type} (ephem : Table Q) (dates : List Int) : Table Q :=
  if ephem.hasCol "datetime" then
    ephem
  else
    ⟨ephem.cols ++ [⟨"datetime", none, dates.map MVal.t⟩]⟩

/-- Lines 123-133 of ephem_subs.py: parse the datetime_str column, add the
datetime column when absent, convert both rate columns to arcsec/min, and
append the combined mean_rate column with the unit read back from the
converted DEC_rate column.  Returns the raised exception or the shaped
table, paired with the state of the (mutated in place) input table at
that point. -/
def convertBase {Q : Type} [Mul Q] [Add Q] (ext : ExternalFns Q) (ephem : Table Q) :
    Except ConvErr (Table Q) × Table Q :=
  match ephem.getCol "datetime_str" with
  | none => (.error .keyError, ephem)
  | some cds =>
    match parseDates cds.vals with
    | .error e => (.error e, ephem)
    | .ok dates =>
      match (addDatetime ephem dates).convertColUnit ext "RA_rate"
          "arcsec / min" with
      | .error e => (.error e, addDatetime ephem dates)
      | .ok t2 =>
        match t2.convertColUnit ext "DEC_rate" "arcsec / min" with
        | .error e => (.error e, t2)
        | .ok t3 =>
          match t3.getCol "RA_rate", t3.getCol "DEC_rate" with
          | some cra, some cdec =>
            match extractQ cra.vals, extractQ cdec.vals with
            | .ok ras, .ok decs =>
              match t3.addCol ⟨"mean_rate", cdec.unit,
                  (List.zipWith (fun a b => ext.sq (a * a + b * b)) ras
                    decs).map MVal.q⟩ with
              | .error e => (.error e, t3)
              | .ok t4 => (.ok t4, t4)
            | .error e, _ => (.error e, t3)
            | _, .error e => (.error e, t3)
          | _, _ => (.error .keyError, t3)

/-- Lines 134-141 of ephem_subs.py: iterate the rows of the datetime, RA
and DEC columns, call calc_moon_sep on each row timestamp with the RA and
Dec converted to radians, discard the returned Moon altitude, and append
the moon_sep and moon_phase columns. -/
def moonStep {Q : Type} (ext : ExternalFns Q) (t : Table Q) :
    Except ConvErr (Table Q) :=
  match t.getCol "datetime", t.getCol "RA", t.getCol "DEC" with
  | some cd, some cra, some cdec =>
    match extractT cd.vals, extractQ cra.vals, extractQ cdec.vals with
    | .ok dates, .ok ras, .ok decs =>
      match t.addCol ⟨"moon_sep", none,
          (zip3With (fun d a b => (ext.moon d (ext.rad a) (ext.rad b)).2.1)
            dates ras decs).map MVal.q⟩ with
      | .error e => .error e
      | .ok t1 =>
        t1.addCol ⟨"moon_phase", none,
          (zip3With (fun d a b => (ext.moon d (ext.rad a) (ext.rad b)).2.2)
            dates ras decs).map MVal.q⟩
    | .error e, _, _ => .error e
    | _, .error e, _ => .error e
    | _, _, .error e => .error e
  | _, _, _ => .error .keyError

/-- convert_horizons_table(ephem, include_moon), as the pair of its
outcome (exception or returned table) and the state of the mutated input
table when the outcome is decided. -/
def convert_horizons_table {Q : Type} [Mul Q] [Add Q] (ext : ExternalFns Q) (ephem : Table Q)
    (includeMoon : Bool) : Except ConvErr (Table Q) × Table Q :=
  match convertBase ext ephem with
  | (.error e, st) => (.error e, st)
  | (.ok t4, _) =>
    if includeMoon then
      match moonStep ext t4 with
      | .error e => (.error e, t4)
      | .ok t5 => (.ok t5, t5)
    else
      (.ok t4, t4)

/-! ## horizons_ephem (ephem_subs.py lines 15-114)

The remote service is modelled as a function from the query key (the
identifier, the identifier type, and the built quantities string) to the
outcome of eph.ephemerides(): a raw table, a raised ConnectionError, or a
raised ValueError with its args tuple.  The epochs (formatted to minute
precision on the first query and to second precision on the retry), the
location, and the airmass, hour-angle and daylight parameters do not
affect the control flow claims modelled here and are not part of the
key.  A fetch result pairs the outcome of the call (a table, None, or a
raised exception) with the list of queries issued. -/

/-- The parameters of one eph.ephemerides() call that the claims are
about. -/
structure QueryKey where
  objId : String
  idType : String
  quantities : String
deriving DecidableEq

/-- The outcome of one remote query. -/
inductive PyResult (α : Type) where
  | ok : α → PyResult α
  | connErr : PyResult α
  | valErr : List String → PyResult α
deriving DecidableEq

/-- Exceptions escaping horizons_ephem: the UnboundLocalError of
returning the never-assigned ephem variable, a ConnectionError raised
where no handler is active, and any exception kind the function does not
catch. -/
inductive PyExn where
  | unboundLocal : PyExn
  | connectionError : PyExn
  | otherError : PyExn
deriving DecidableEq

/-- Lines 93-113 of ephem_subs.py: the except ValueError handler of the
first query.  ephem has been set to None; when the args are nonempty the
first arg is split on newlines and disambiguated, and a nonzero resolved
id (Python if horizons_id tests truthiness) triggers the single retry
with id_type set to id.  Inside the retry only ValueError is caught: a
ValueError from the query leaves ephem as None, a ValueError raised by
convert_horizons_table after a successful query leaves ephem bound to
the (possibly partially mutated) raw table, and a ConnectionError
propagates out of the function.  Returns the outcome paired with the
retry queries issued. -/
def handleAmbiguous {Q : Type} [Mul Q] [Add Q] (ext : ExternalFns Q)
    (svc : QueryKey → PyResult (Table Q)) (q : String) (includeMoon : Bool)
    (now : Int) (args : List String) :
    Except PyExn (Option (Table Q)) × List QueryKey :=
  match args with
  | [] => (.ok none, [])
  | a0 :: _ =>
    match determine_horizons_id (pySplitNl a0) now with
    | none => (.ok none, [])
    | some hid =>
      if hid = 0 then
        (.ok none, [])
      else
        let k2 : QueryKey := ⟨toString hid, "id", q⟩
        match svc k2 with
        | .connErr => (.error .connectionError, [k2])
        | .valErr _ => (.ok none, [k2])
        | .ok raw2 =>
          match convert_horizons_table ext raw2 includeMoon with
          | (.ok t2, _) => (.ok (some t2), [k2])
          | (.error (.valueError _), st) => (.ok (some st), [k2])
          | (.error _, _) => (.error .otherError, [k2])

/-- horizons_ephem(obj_name, ..., quantities, include_moon): build the
quantities string, issue the first query with id_type smallbody, shape a
successful response, and handle ConnectionError (which leaves the local
ephem unbound, so the final return raises UnboundLocalError) and
ValueError (the disambiguate-and-retry path).  now is the value
datetime.utcnow() takes inside determine_horizons_id.  Returns the
outcome paired with every query issued. -/
def horizons_ephem {Q : Type} [Mul Q] [Add Q] (ext : ExternalFns Q)
    (svc : QueryKey → PyResult (Table Q)) (objName : String)
    (quantities : String) (includeMoon : Bool) (now : Int) :
    Except PyExn (Option (Table Q)) × List QueryKey :=
  let q := buildQuantities quantities
  let k1 : QueryKey := ⟨objName, "smallbody", q⟩
  let res : Except PyExn (Option (Table Q)) × List QueryKey :=
    match svc k1 with
    | .connErr => (.error .unboundLocal, [])
    | .valErr args => handleAmbiguous ext svc q includeMoon now args
    | .ok raw =>
      match convert_horizons_table ext raw includeMoon with
      | (.ok t, _) => (.ok (some t), [])
      | (.error (.valueError args), _) =>
        handleAmbiguous ext svc q includeMoon now args
      | (.error _, _) => (.error .otherError, [])
  (res.1, k1 :: res.2)

/-! ## Concrete environments used by witnesses and counterexamples -/

/-- External functions over integer numerics used for concrete
evaluations: the unit ratio is the identity and is defined exactly for
the arcsec/h to arcsec/min conversion. -/
def extTriv : ExternalFns Int where
  sq := fun x => x
  rad := fun x => x
  rateScale := fun u target =>
    if u = some "arcsec / h" && target = "arcsec / min" then
      some (fun x => x)
    else
      none
  moon := fun _ a b => (0, a + b, 7)

/-- A service whose first query reports an ambiguous name with one
qualifying candidate and whose retry raises ConnectionError. -/
def svcC2 : QueryKey → PyResult (Table Int) := fun k =>
  if k.idType = "id" then
    .connErr
  else
    .valErr ["Ambiguous target name.\n 900033 2019 name A B"]

/-- A service whose first query reports an ambiguous name with one
qualifying candidate and whose retry raises ValueError again. -/
def svcRetryVal : QueryKey → PyResult (Table Int) := fun k =>
  if k.idType = "id" then
    .valErr ["no matches found"]
  else
    .valErr ["Ambiguous target name.\n 12 2001 x y z"]

/-- A service that always raises ConnectionError. -/
def svcConn : QueryKey → PyResult (Table Int) := fun _ => .connErr

/-- The input table of the concrete shaping evaluations. -/
def tC10 : Table Int :=
  ⟨[⟨"datetime_str", none, [.s "2020-Jan-01 00:00"]⟩,
    ⟨"RA", none, [.q 10]⟩, ⟨"DEC", none, [.q 20]⟩,
    ⟨"RA_rate", some "arcsec / h", [.q 60]⟩,
    ⟨"DEC_rate", some "arcsec / h", [.q 2]⟩]⟩

/-- The table tC10 shaped without the moon columns (extTriv scaling is
the identity, so the rate values are unchanged). -/
def outC10 : Table Int :=
  ⟨[⟨"datetime_str", none, [.s "2020-Jan-01 00:00"]⟩,
    ⟨"RA", none, [.q 10]⟩, ⟨"DEC", none, [.q 20]⟩,
    ⟨"RA_rate", some "arcsec / min", [.q 60]⟩,
    ⟨"DEC_rate", some "arcsec / min", [.q 2]⟩,
    ⟨"datetime", none, [.t (dateToMicros 2020 1 1 0 0)]⟩,
    ⟨"mean_rate", some "arcsec / min", [.q (60 * 60 + 2 * 2)]⟩]⟩

/-- The table tC10 shaped with the moon columns under extTriv. -/
def outC9 : Table Int :=
  ⟨outC10.cols ++ [⟨"moon_sep", none, [.q 30]⟩,
                   ⟨"moon_phase", none, [.q 7]⟩]⟩

/-! ## C4: the quantity set sent to the service -/

/-- C4: the claim states that for every caller-supplied quantities string
the set sent to the service contains the standalone RA/Dec-rate code 3.
The code only appends ",3" when the substring "3," is absent, so the
string "23,24" (where "3," occurs inside "23,") is sent unchanged and
contains no standalone code 3, although the source comment (Need Ra/Dec
rate at least) and the dependence of convert_horizons_table on the
RA_rate column make the claim the evident intent.  The claimed example
"1,9" does gain code 3, and the unchanged "23,24" string is what the
fetch sends as its query quantities. -/
theorem sent_codes_missing_rate_code :
    buildQuantities "23,24" = "23,24" ∧
    "3" ∉ sentCodes "23,24" ∧
    "3" ∈ sentCodes "1,9" ∧
    (horizons_ephem extTriv svcConn "ceres" "23,24" false 0).2 =
      [⟨"ceres", "smallbody", "23,24"⟩] := by
  decide

/-! ## C5: idempotence of the augmentation -/

/-- C5 counterexample: the claim states that a quantities string already
containing code 3 is left unchanged.  The string "1,3" contains the
standalone code 3, yet the built string is "1,3,3", with a duplicated
code 3. -/
theorem build_quantities_duplicate_counterexample :
    "3" ∈ pySplitComma "1,3" ∧
    buildQuantities "1,3" = "1,3,3" ∧
    sentCodes "1,3" = ["1", "3", "3"] := by
  decide

/-- C5 amended: the augmentation leaves the quantities string unchanged
exactly when the two-character substring "3," occurs in it; a string
whose code 3 is not followed by a comma (for example a trailing "3") is
augmented again even though code 3 is already present. -/
theorem build_quantities_unchanged_iff (q : String) :
    buildQuantities q = q ↔ containsSub "3," q = true := by
  unfold buildQuantities
  by_cases h : containsSub "3," q = true
  · simp [h]
  · rw [Bool.not_eq_true] at h
    rw [h]
    simp only [Bool.false_eq_true, if_false, iff_false]
    intro hh
    have hlen := congrArg String.length hh
    rw [String.length_append] at hlen
    have h2 : String.length ",3" = 2 := rfl
    rw [h2] at hlen
    omega

/-! ## C8: get_mountlimits -/

/-- C8: for every site identifier (matched case-insensitively),
get_mountlimits returns (-67.5, 67.5, 30) on a 1-meter-class match,
(-67.5, 66.9, 15) on a 0.4-meter-class match (tried second), and
(-180, 180, 25) otherwise; it always returns one of these three values. -/
theorem get_mountlimits_classes (s : String) :
    get_mountlimits s =
      if isOneMeterClass s then ((-67.5 : ℚ), (67.5 : ℚ), (30 : ℚ))
      else if isPointFourClass s then ((-67.5 : ℚ), (66.9 : ℚ), (15 : ℚ))
      else ((-180 : ℚ), (180 : ℚ), (25 : ℚ)) := by
  cases h1 : (containsSub "-1M0A" (pyUpper s)
      || ["V37", "V39", "W85", "W86", "W87", "K91", "K92", "K93", "Q63",
          "Q64"].contains (pyUpper s)) <;>
    cases h2 : (containsSub "-AQWA" (pyUpper s) || containsSub "-AQWB" (pyUpper s)
        || containsSub "CLMA-0M4" (pyUpper s)
        || ["Z17", "Z21", "Q58", "Q59", "T03", "T04", "W89", "W79", "V38",
            "L09"].contains (pyUpper s)) <;>
      simp only [get_mountlimits, isOneMeterClass, isPointFourClass, h1, h2,
        if_true, if_false, Bool.false_eq_true, Bool.true_eq_false] <;>
      norm_num [Prod.ext_iff]

/-! ## C1: which candidate determine_horizons_id selects -/

/-- C1 counterexample: the claim states the returned id is that of the
qualifying line whose year is closest to the reference time, first
evaluated winning exact ties.  With reference time 2019-01-01, the lines
with years 2018 and 2020 are both exactly 365 days away, and the code
returns the second id (the loop uses a non-strict comparison, so a later
tie replaces an earlier one), not the first.  With reference time
2019-06-01, the line with year 2020 (214 days away) is evaluated first
and stores the negative timespan now minus year start, after which the
strictly closer line with year 2019 (151 days away) can never satisfy
the comparison, so the code returns the farther candidate. -/
theorem determine_horizons_id_counterexample :
    determine_horizons_id ["1 2018 a b c", "2 2020 a b c"]
        (yearStartMicros 2019) = some 2 ∧
    determine_horizons_id ["1 2018 a b c", "2 2020 a b c"]
        (yearStartMicros 2019) ≠ some 1 ∧
    determine_horizons_id ["1 2020 a b c", "2 2019 a b c"]
        (dateToMicros 2019 6 1 0 0) = some 1 ∧
    determine_horizons_id ["1 2020 a b c", "2 2019 a b c"]
        (dateToMicros 2019 6 1 0 0) ≠ some 2 := by
  decide

/-! ## C3: connectivity failure on the first query -/

/-- C3: the claim states a ConnectionError on the first query is caught
and the fetch returns the unavailable outcome without raising.  The
handler only logs: the local variable ephem is never assigned on this
path, so the final return statement raises UnboundLocalError out of the
call.  No retry is issued (the query list is just the first query). -/
theorem horizons_ephem_connection_error_raises {Q : Type} [Mul Q] [Add Q]
    (ext : ExternalFns Q) (svc : QueryKey → PyResult (Table Q))
    (objName quantities : String) (includeMoon : Bool) (now : Int)
    (h : svc ⟨objName, "smallbody", buildQuantities quantities⟩ = .connErr) :
    horizons_ephem ext svc objName quantities includeMoon now =
      (.error .unboundLocal,
       [⟨objName, "smallbody", buildQuantities quantities⟩]) := by
  simp only [horizons_ephem, h]

/-- C3 witness: a service that always raises ConnectionError makes the
fetch raise UnboundLocalError after its single query. -/
theorem horizons_ephem_connection_error_raises_witness :
    horizons_ephem extTriv svcConn "eros" "1,9" false 0 =
      (.error .unboundLocal, [⟨"eros", "smallbody", "1,9,3"⟩]) :=
  horizons_ephem_connection_error_raises extTriv svcConn "eros" "1,9" false 0
    (by decide)

/-! ## C2: the disambiguation retry -/

/-- C2 counterexample: the claim states that when the single retry fails
for any reason the fetch reports the failure and returns the unavailable
outcome.  With a service whose retry raises ConnectionError, the retry is
issued exactly once but the exception propagates out of the call (the
inner handler only catches ValueError), so the outcome is a raised
ConnectionError, not the unavailable outcome. -/
theorem horizons_ephem_retry_counterexample :
    horizons_ephem extTriv svcC2 "eros" "1,9" false (yearStartMicros 2020) =
      (.error .connectionError,
        [⟨"eros", "smallbody", "1,9,3"⟩, ⟨"900033", "id", "1,9,3"⟩]) ∧
    (horizons_ephem extTriv svcC2 "eros" "1,9" false
        (yearStartMicros 2020)).1 ≠ .ok none := by
  decide

/-! ## C1 amended: the candidate the loop actually selects -/

lemma yearStartMicros_nonneg (y : Nat) : 0 ≤ yearStartMicros y := by
  unfold yearStartMicros dateToMicros
  positivity

lemma disamb_foldl_eq (now : Int) :
    ∀ (ls : List String) (b : Nat × Nat),
      (∀ c ∈ ls.filterMap lineCandidate, yearStartMicros c.2 ≤ now) →
      yearStartMicros b.2 ≤ now →
      (ls.foldl (disambStep now) ⟨now - yearStartMicros b.2, some b.1⟩).horizonsId
        = ((ls.filterMap lineCandidate).foldl (lastNearestStep now)
            (some b)).map Prod.fst := by
  intro ls
  induction ls with
  | nil => intro b _ _; rfl
  | cons l ls ih =>
    intro b hp hb
    cases hc : lineCandidate l with
    | none =>
      rw [List.foldl_cons, List.filterMap_cons, hc]
      have hstep : disambStep now ⟨now - yearStartMicros b.2, some b.1⟩ l
          = ⟨now - yearStartMicros b.2, some b.1⟩ := by
        unfold disambStep; rw [hc]
      rw [hstep]
      exact ih b (by intro c hcm; exact hp c (by rw [List.filterMap_cons, hc]; exact hcm)) hb
    | some c =>
      have hcm : c ∈ (l :: ls).filterMap lineCandidate := by
        rw [List.filterMap_cons, hc]; exact List.mem_cons_self c _
      have hyc : yearStartMicros c.2 ≤ now := hp c hcm
      have habsc : |now - yearStartMicros c.2| = now - yearStartMicros c.2 :=
        abs_of_nonneg (sub_nonneg.mpr hyc)
      have habsb : |now - yearStartMicros b.2| = now - yearStartMicros b.2 :=
        abs_of_nonneg (sub_nonneg.mpr hb)
      have hp2 : ∀ d ∈ ls.filterMap lineCandidate, yearStartMicros d.2 ≤ now := by
        intro d hdm; exact hp d (by rw [List.filterMap_cons, hc]; exact List.mem_cons_of_mem _ hdm)
      rw [List.foldl_cons, List.filterMap_cons, hc, List.foldl_cons]
      have hstep : disambStep now ⟨now - yearStartMicros b.2, some b.1⟩ l
          = if |now - yearStartMicros c.2| ≤ now - yearStartMicros b.2 then
              ⟨now - yearStartMicros c.2, some c.1⟩
            else ⟨now - yearStartMicros b.2, some b.1⟩ := by
        simp only [disambStep, hc]
      have hstep2 : lastNearestStep now (some b) c
          = if |now - yearStartMicros c.2| ≤ |now - yearStartMicros b.2| then
              some c
            else some b := rfl
      rw [hstep, hstep2]
      by_cases hle : |now - yearStartMicros c.2| ≤ |now - yearStartMicros b.2|
      · rw [if_pos (by rwa [habsb] at hle), if_pos hle]
        exact ih c hp2 hyc
      · rw [if_neg (by rwa [habsb] at hle), if_neg hle]
        exact ih b hp2 hb

/-- C1 amended: provided the reference time is at most timedelta.max
after the epoch and every qualifying year starts at or before the
reference time, determine_horizons_id returns the id of the LAST
qualifying line whose year start is nearest to the reference time (the
loop compares with less-than-or-equal, so a later line at equal distance
replaces an earlier one).  When a qualifying year can lie after the
reference time the stored timespan goes negative and the nearest-wins
description fails altogether, as the counterexample shows. -/
theorem determine_horizons_id_last_nearest (lines : List String) (now : Int)
    (hmax : now ≤ timedeltaMaxMicros)
    (hpast : ∀ c ∈ lines.filterMap lineCandidate, yearStartMicros c.2 ≤ now) :
    determine_horizons_id lines now =
      (lastNearest now (lines.filterMap lineCandidate)).map Prod.fst := by
  unfold determine_horizons_id lastNearest
  induction lines with
  | nil => rfl
  | cons l ls ih =>
    cases hc : lineCandidate l with
    | none =>
      rw [List.foldl_cons, List.filterMap_cons, hc]
      have hstep : disambStep now ⟨timedeltaMaxMicros, none⟩ l
          = ⟨timedeltaMaxMicros, none⟩ := by
        unfold disambStep; rw [hc]
      rw [hstep]
      exact ih (by intro c hcm; exact hpast c (by rw [List.filterMap_cons, hc]; exact hcm))
    | some c =>
      have hcm : c ∈ (l :: ls).filterMap lineCandidate := by
        rw [List.filterMap_cons, hc]; exact List.mem_cons_self c _
      have hyc : yearStartMicros c.2 ≤ now := hpast c hcm
      have hcond : |now - yearStartMicros c.2| ≤ timedeltaMaxMicros := by
        rw [abs_of_nonneg (sub_nonneg.mpr hyc)]
        have := yearStartMicros_nonneg c.2
        omega
      rw [List.foldl_cons, List.filterMap_cons, hc, List.foldl_cons]
      have hstep : disambStep now ⟨timedeltaMaxMicros, none⟩ l
          = ⟨now - yearStartMicros c.2, some c.1⟩ := by
        simp only [disambStep, hc]
        rw [if_pos hcond]
      rw [hstep]
      have hstep2 : lastNearestStep now none c = some c := rfl
      rw [hstep2]
      exact disamb_foldl_eq now ls c
        (by intro d hdm; exact hpast d (by rw [List.filterMap_cons, hc]; exact List.mem_cons_of_mem _ hdm))
        hyc

/-- C1 amended witness: with reference time 2019-01-01 and candidate
years 1990 and 2015 (both at or before the reference time), the nearest
candidate 434 is returned, as in the example of the claim. -/
theorem determine_horizons_id_last_nearest_witness :
    determine_horizons_id ["433 1990 a b c", "434 2015 x y z w"]
        (yearStartMicros 2019) = some 434 := by
  have h := determine_horizons_id_last_nearest
    ["433 1990 a b c", "434 2015 x y z w"] (yearStartMicros 2019)
    (by decide) (by decide)
  rw [h]
  decide

/-! ## C6: lines with an unparsable year are skipped -/

lemma lineCandidate_none_of_bad_year (bad : String)
    (hy : parseYear ((pySplit bad).getD 1 "") = none) :
    lineCandidate bad = none := by
  unfold lineCandidate
  rcases hsp : pySplit bad with _ | ⟨c0, _ | ⟨c1, rest⟩⟩
  all_goals try rfl
  rw [hsp] at hy
  simp only [List.getD_cons_zero, List.getD_cons_succ] at hy
  simp [hy]

/-- C6: a line whose first two whitespace-separated tokens are numeric
but whose year token fails %Y parsing (for example a five-digit numeric
token) is skipped without affecting the result: deleting it from the
line list leaves determine_horizons_id unchanged, for any surrounding
lines and any reference time.  In the embedding the function is total,
reflecting that the source catches the ValueError and continues. -/
theorem determine_horizons_id_skips_bad_year (l1 l2 : List String)
    (bad : String) (now : Int)
    (h5 : 5 ≤ (pySplit bad).length)
    (h0 : pyIsDigit ((pySplit bad).getD 0 "") = true)
    (h1 : pyIsDigit ((pySplit bad).getD 1 "") = true)
    (hy : parseYear ((pySplit bad).getD 1 "") = none) :
    determine_horizons_id (l1 ++ bad :: l2) now
      = determine_horizons_id (l1 ++ l2) now := by
  have hnone := lineCandidate_none_of_bad_year bad hy
  have hstep : ∀ st, disambStep now st bad = st := by
    intro st; unfold disambStep; rw [hnone]
  unfold determine_horizons_id
  rw [List.foldl_append, List.foldl_cons, hstep, ← List.foldl_append]

/-- C6 witness: the line with year token 20200 (five digits) is skipped
and the result equals the result on the remaining lines. -/
theorem determine_horizons_id_skips_bad_year_witness :
    determine_horizons_id ["5 2020 a b c", "7 20200 a b c"]
        (yearStartMicros 2021)
      = determine_horizons_id ["5 2020 a b c"] (yearStartMicros 2021) :=
  determine_horizons_id_skips_bad_year ["5 2020 a b c"] [] "7 20200 a b c"
    (yearStartMicros 2021) (by decide) (by decide) (by decide) (by decide)

/-! ## C2 amended: the single retry and its failure modes -/

/-- C2 amended: when the first query raises ValueError with a nonempty
args tuple whose first entry disambiguates to a nonzero id, the fetch
issues exactly one retry, using that id with id_type id and the same
built quantities string.  If the retry query raises ValueError the fetch
returns None (unavailable) with no further retry; if the retry query and
the shaping succeed the shaped table is returned; but if the retry
raises ConnectionError the exception propagates out of the call, and if
the retry query succeeds while convert_horizons_table raises ValueError
the raw (unshaped, possibly partially mutated) table is returned, not
the unavailable outcome. -/
theorem horizons_ephem_single_retry {Q : Type} [Mul Q] [Add Q]
    (ext : ExternalFns Q) (svc : QueryKey → PyResult (Table Q))
    (objName quantities : String) (includeMoon : Bool) (now : Int)
    (a0 : String) (rest : List String) (hid : Nat)
    (h1 : svc ⟨objName, "smallbody", buildQuantities quantities⟩
        = .valErr (a0 :: rest))
    (h2 : determine_horizons_id (pySplitNl a0) now = some hid)
    (h3 : hid ≠ 0) :
    (horizons_ephem ext svc objName quantities includeMoon now).2 =
      [⟨objName, "smallbody", buildQuantities quantities⟩,
       ⟨toString hid, "id", buildQuantities quantities⟩] ∧
    (∀ a, svc ⟨toString hid, "id", buildQuantities quantities⟩ = .valErr a →
      (horizons_ephem ext svc objName quantities includeMoon now).1
        = .ok none) ∧
    (svc ⟨toString hid, "id", buildQuantities quantities⟩ = .connErr →
      (horizons_ephem ext svc objName quantities includeMoon now).1
        = .error .connectionError) ∧
    (∀ raw t st, svc ⟨toString hid, "id", buildQuantities quantities⟩ = .ok raw →
      convert_horizons_table ext raw includeMoon = (.ok t, st) →
      (horizons_ephem ext svc objName quantities includeMoon now).1
        = .ok (some t)) ∧
    (∀ raw eargs st,
      svc ⟨toString hid, "id", buildQuantities quantities⟩ = .ok raw →
      convert_horizons_table ext raw includeMoon
        = (.error (.valueError eargs), st) →
      (horizons_ephem ext svc objName quantities includeMoon now).1
        = .ok (some st)) := by
  refine ⟨?_, ?_, ?_, ?_, ?_⟩
  · simp only [horizons_ephem, h1, handleAmbiguous, h2, if_neg h3]
    cases hk : svc ⟨toString hid, "id", buildQuantities quantities⟩ with
    | ok raw =>
      rcases hconv : convert_horizons_table ext raw includeMoon with ⟨res, st⟩
      cases res with
      | ok t => simp [hconv]
      | error e => cases e <;> simp [hconv]
    | connErr => simp
    | valErr a => simp
  · intro a hk
    simp only [horizons_ephem, h1, handleAmbiguous, h2, if_neg h3, hk]
  · intro hk
    simp only [horizons_ephem, h1, handleAmbiguous, h2, if_neg h3, hk]
  · intro raw t st hk hconv
    simp only [horizons_ephem, h1, handleAmbiguous, h2, if_neg h3, hk, hconv]
  · intro raw eargs st hk hconv
    simp only [horizons_ephem, h1, handleAmbiguous, h2, if_neg h3, hk, hconv]

/-- C2 amended witness: a service whose retry raises ValueError makes
the fetch return None after exactly one id-typed retry. -/
theorem horizons_ephem_single_retry_witness :
    (horizons_ephem extTriv svcRetryVal "ceres" "1,9" false
        (yearStartMicros 2002)).1 = .ok none ∧
    (horizons_ephem extTriv svcRetryVal "ceres" "1,9" false
        (yearStartMicros 2002)).2 =
      [⟨"ceres", "smallbody", "1,9,3"⟩, ⟨"12", "id", "1,9,3"⟩] := by
  have h := horizons_ephem_single_retry extTriv svcRetryVal "ceres" "1,9"
    false (yearStartMicros 2002) "Ambiguous target name.\n 12 2001 x y z" []
    12 (by decide) (by decide) (by decide)
  exact ⟨h.2.1 ["no matches found"] (by decide), h.1⟩

/-! ## C7: a malformed timestamp fails the whole shaping -/

lemma parseDates_malformed {Q : Type} (vals : List (MVal Q)) (bad : String)
    (hstr : ∀ v ∈ vals, v.isStr = true) (hbad : MVal.s bad ∈ vals)
    (hparse : parseDatetimeStr bad = none) :
    parseDates vals
      = .error (.valueError ["time data does not match format"]) := by
  induction vals with
  | nil => cases hbad
  | cons v rest ih =>
    have hv : v.isStr = true := hstr v (List.mem_cons_self v rest)
    cases v with
    | q x => cases hv
    | t x => cases hv
    | s d =>
      rw [parseDates]
      cases hp : parseDatetimeStr d with
      | none => rfl
      | some micros =>
        have hmem : MVal.s bad ∈ rest := by
          rcases List.mem_cons.mp hbad with he | hm
          · cases he
            rw [hp] at hparse
            cases hparse
          · exact hm
        rw [ih (fun w hw => hstr w (List.mem_cons_of_mem (MVal.s d) hw)) hmem]
        rfl

/-- C7: if any cell of the datetime_str column is a malformed timestamp
string (all cells being strings), convert_horizons_table raises
ValueError before any column is added or any rate unit is converted: the
outcome is the error and the input table is returned exactly as it was,
for either value of include_moon; no partially shaped table exists. -/
theorem convert_horizons_table_malformed {Q : Type} [Mul Q] [Add Q]
    (ext : ExternalFns Q) (t : Table Q) (includeMoon : Bool) (cds : MCol Q)
    (bad : String)
    (hc : t.getCol "datetime_str" = some cds)
    (hstr : ∀ v ∈ cds.vals, v.isStr = true)
    (hbad : MVal.s bad ∈ cds.vals)
    (hparse : parseDatetimeStr bad = none) :
    convert_horizons_table ext t includeMoon
      = (.error (.valueError ["time data does not match format"]), t) := by
  have hpd := parseDates_malformed cds.vals bad hstr hbad hparse
  simp only [convert_horizons_table, convertBase, hc, hpd]

/-- C7 witness: a table whose second timestamp has month token Xyz fails
the shaping with ValueError and is returned unchanged. -/
theorem convert_horizons_table_malformed_witness :
    parseDatetimeStr "2020-Xyz-01 00:00" = none ∧
    convert_horizons_table extTriv
        ⟨[⟨"datetime_str", none,
           [.s "2020-Jan-01 00:00", .s "2020-Xyz-01 00:00"]⟩]⟩ false
      = (.error (.valueError ["time data does not match format"]),
         ⟨[⟨"datetime_str", none,
            [.s "2020-Jan-01 00:00", .s "2020-Xyz-01 00:00"]⟩]⟩) :=
  ⟨by decide,
   convert_horizons_table_malformed extTriv
     ⟨[⟨"datetime_str", none,
        [.s "2020-Jan-01 00:00", .s "2020-Xyz-01 00:00"]⟩]⟩ false
     ⟨"datetime_str", none,
      [.s "2020-Jan-01 00:00", .s "2020-Xyz-01 00:00"]⟩
     "2020-Xyz-01 00:00" (by decide) (by decide) (by decide) (by decide)⟩

/-! ## Table lemmas shared by the shaping claims -/

lemma getCol_name {Q : Type} {t : Table Q} {n : String} {c : MCol Q}
    (h : t.getCol n = some c) : c.name = n := by
  have := List.find?_some h
  simpa using this

lemma getCol_mem {Q : Type} {t : Table Q} {n : String} {c : MCol Q}
    (h : t.getCol n = some c) : c ∈ t.cols :=
  List.mem_of_find?_eq_some h

lemma getCol_append_left {Q : Type} {t : Table Q} {n : String} {c : MCol Q}
    (l : List (MCol Q)) (h : t.getCol n = some c) :
    Table.getCol ⟨t.cols ++ l⟩ n = some c := by
  unfold Table.getCol at h ⊢
  rw [List.find?_append, h]
  rfl

lemma hasCol_append_single {Q : Type} (t : Table Q) (c : MCol Q)
    (nm : String) :
    Table.hasCol ⟨t.cols ++ [c]⟩ nm = (t.hasCol nm || decide (c.name = nm)) := by
  unfold Table.hasCol
  rw [List.any_append]
  simp

lemma addCol_ok {Q : Type} {t : Table Q} {c : MCol Q} {t' : Table Q}
    (h : t.addCol c = .ok t') :
    t' = ⟨t.cols ++ [c]⟩ ∧ t.hasCol c.name = false := by
  unfold Table.addCol at h
  split at h
  · cases h
  · rename_i hh
    injection h with h
    refine ⟨h.symm, ?_⟩
    rwa [Bool.not_eq_true] at hh

lemma updateCol_name {Q : Type} (n target : String) (f : Q → Q)
    (c : MCol Q) : (updateCol n target f c).name = c.name := by
  unfold updateCol
  split <;> rfl

lemma updateCol_vals_length {Q : Type} (n target : String) (f : Q → Q)
    (c : MCol Q) : (updateCol n target f c).vals.length = c.vals.length := by
  unfold updateCol
  split
  · simp
  · rfl

lemma updateCol_of_ne {Q : Type} {n : String} (target : String) (f : Q → Q)
    {c : MCol Q} (h : c.name ≠ n) : updateCol n target f c = c := by
  unfold updateCol
  rw [if_neg h]

lemma find?_map_name {Q : Type} (u : MCol Q → MCol Q)
    (hu : ∀ c, (u c).name = c.name) (nm : String) (l : List (MCol Q)) :
    (l.map u).find? (fun c => c.name = nm)
      = (l.find? (fun c => c.name = nm)).map u := by
  induction l with
  | nil => rfl
  | cons a l ih =>
    rw [List.map_cons, List.find?_cons, List.find?_cons]
    by_cases hp : a.name = nm
    · have h1 : decide ((u a).name = nm) = true := by simp [hu a, hp]
      have h2 : decide (a.name = nm) = true := by simp [hp]
      rw [h1, h2]
      rfl
    · have h1 : decide ((u a).name = nm) = false := by simp [hu a, hp]
      have h2 : decide (a.name = nm) = false := by simp [hp]
      rw [h1, h2]
      exact ih

lemma map_name_of_update {Q : Type} (u : MCol Q → MCol Q)
    (hu : ∀ c, (u c).name = c.name) (l : List (MCol Q)) :
    (l.map u).map MCol.name = l.map MCol.name := by
  induction l with
  | nil => rfl
  | cons a l ih => simp [hu a, ih]

lemma find?_name_eq_of_nodup {Q : Type} {l : List (MCol Q)} {c : MCol Q}
    (hmem : c ∈ l) (hnodup : (l.map MCol.name).Nodup) :
    l.find? (fun x => x.name = c.name) = some c := by
  induction l with
  | nil => cases hmem
  | cons a l ih =>
    rw [List.map_cons, List.nodup_cons] at hnodup
    rcases List.mem_cons.mp hmem with rfl | hm
    · exact List.find?_cons_of_pos _ (by simp)
    · have hne : ¬ (a.name = c.name) := by
        intro he
        exact hnodup.1 (he ▸ List.mem_map_of_mem MCol.name hm)
      rw [List.find?_cons_of_neg _ (by simpa using hne)]
      exact ih hm hnodup.2

lemma extractQ_ok_eq {Q : Type} :
    ∀ (vals : List (MVal Q)) (qs : List Q),
      extractQ vals = .ok qs → vals = qs.map MVal.q := by
  intro vals
  induction vals with
  | nil =>
    intro qs h
    injection h with h
    rw [← h]
    rfl
  | cons v rest ih =>
    intro qs h
    cases v with
    | s d => exact Except.noConfusion h
    | t x => exact Except.noConfusion h
    | q x =>
      simp only [extractQ] at h
      cases hr : extractQ rest with
      | error e =>
        rw [hr] at h
        simp only [Except.map] at h
        exact Except.noConfusion h
      | ok l =>
        rw [hr] at h
        simp only [Except.map] at h
        injection h with h
        rw [← h, List.map_cons, ← ih l hr]

lemma extractT_ok_eq {Q : Type} :
    ∀ (vals : List (MVal Q)) (ds : List Int),
      extractT vals = .ok ds → vals = ds.map MVal.t := by
  intro vals
  induction vals with
  | nil =>
    intro ds h
    injection h with h
    rw [← h]
    rfl
  | cons v rest ih =>
    intro ds h
    cases v with
    | s d => exact Except.noConfusion h
    | q x => exact Except.noConfusion h
    | t x =>
      simp only [extractT] at h
      cases hr : extractT rest with
      | error e =>
        rw [hr] at h
        simp only [Except.map] at h
        exact Except.noConfusion h
      | ok l =>
        rw [hr] at h
        simp only [Except.map] at h
        injection h with h
        rw [← h, List.map_cons, ← ih l hr]

lemma parseDates_ok_length {Q : Type} :
    ∀ (vals : List (MVal Q)) (ds : List Int),
      parseDates vals = .ok ds → ds.length = vals.length := by
  intro vals
  induction vals with
  | nil =>
    intro ds h
    injection h with h
    rw [← h]
    rfl
  | cons v rest ih =>
    intro ds h
    cases v with
    | q x => exact Except.noConfusion h
    | t x => exact Except.noConfusion h
    | s d =>
      simp only [parseDates] at h
      cases hp : parseDatetimeStr d with
      | none =>
        rw [hp] at h
        exact Except.noConfusion h
      | some micros =>
        rw [hp] at h
        cases hr : parseDates rest with
        | error e =>
          rw [hr] at h
          simp only [Except.map] at h
          exact Except.noConfusion h
        | ok l =>
          rw [hr] at h
          simp only [Except.map] at h
          injection h with h
          rw [← h]
          simp [ih l hr]

lemma zip3With_length_eq {α β γ δ : Type} (f : α → β → γ → δ) :
    ∀ (as : List α) (bs : List β) (cs : List γ),
      bs.length = as.length → cs.length = as.length →
      (zip3With f as bs cs).length = as.length := by
  intro as
  induction as with
  | nil => intro bs cs _ _; rfl
  | cons a as ih =>
    intro bs cs h1 h2
    cases bs with
    | nil => simp at h1
    | cons b bs =>
      cases cs with
      | nil => simp at h2
      | cons c cs =>
        simp only [List.length_cons] at h1 h2 ⊢
        rw [zip3With]
        simp only [List.length_cons]
        rw [ih bs cs (by omega) (by omega)]

lemma convertColUnit_ok {Q : Type} {ext : ExternalFns Q} {t : Table Q}
    {n target : String} {t' : Table Q}
    (h : t.convertColUnit ext n target = .ok t') :
    ∃ c f, t.getCol n = some c ∧ ext.rateScale c.unit target = some f ∧
      t' = ⟨t.cols.map (updateCol n target f)⟩ := by
  unfold Table.convertColUnit at h
  split at h
  · cases h
  · rename_i c hg
    split at h
    · cases h
    · rename_i f hf
      split at h
      · cases h
      · injection h with h
        exact ⟨c, f, hg, hf, h.symm⟩

lemma convertBase_ok {Q : Type} [Mul Q] [Add Q] {ext : ExternalFns Q}
    {t t4 st : Table Q} (h : convertBase ext t = (.ok t4, st)) :
    st = t4 ∧
    ∃ cds dates t2 t3 cra3 cdec3 ras decs,
      t.getCol "datetime_str" = some cds ∧
      parseDates cds.vals = .ok dates ∧
      (addDatetime t dates).convertColUnit ext "RA_rate" "arcsec / min"
        = .ok t2 ∧
      t2.convertColUnit ext "DEC_rate" "arcsec / min" = .ok t3 ∧
      t3.getCol "RA_rate" = some cra3 ∧
      t3.getCol "DEC_rate" = some cdec3 ∧
      extractQ cra3.vals = .ok ras ∧
      extractQ cdec3.vals = .ok decs ∧
      t3.addCol ⟨"mean_rate", cdec3.unit,
        (List.zipWith (fun a b => ext.sq (a * a + b * b)) ras decs).map
          MVal.q⟩ = .ok t4 := by
  unfold convertBase at h
  split at h
  · cases h
  · rename_i cds hcds
    split at h
    · cases h
    · rename_i dates hdates
      split at h
      · cases h
      · rename_i t2 ht2
        split at h
        · cases h
        · rename_i t3 ht3
          split at h
          · rename_i cra3 cdec3 hra3 hdec3
            split at h
            · rename_i ras decs hras hdecs
              split at h
              · cases h
              · rename_i t4x ht4
                injection h with h1 h2
                injection h1 with h1
                subst h1
                subst h2
                exact ⟨rfl, cds, dates, t2, t3, cra3, cdec3, ras, decs,
                  hcds, hdates, ht2, ht3, hra3, hdec3, hras, hdecs, ht4⟩
            · cases h
            · cases h
          · cases h

lemma moonStep_ok_shape {Q : Type} {ext : ExternalFns Q} {t t' : Table Q}
    (h : moonStep ext t = .ok t') :
    ∃ cd cra cdec dates ras decs,
      t.getCol "datetime" = some cd ∧
      t.getCol "RA" = some cra ∧
      t.getCol "DEC" = some cdec ∧
      extractT cd.vals = .ok dates ∧
      extractQ cra.vals = .ok ras ∧
      extractQ cdec.vals = .ok decs ∧
      t' = ⟨t.cols ++
        [⟨"moon_sep", none, (zip3With (fun d a b =>
            (ext.moon d (ext.rad a) (ext.rad b)).2.1) dates ras
            decs).map MVal.q⟩,
         ⟨"moon_phase", none, (zip3With (fun d a b =>
            (ext.moon d (ext.rad a) (ext.rad b)).2.2) dates ras
            decs).map MVal.q⟩]⟩ := by
  unfold moonStep at h
  split at h
  · rename_i cd cra cdec hd hra hdec
    split at h
    · rename_i dates ras decs hdt hqa hqd
      split at h
      · cases h
      · rename_i t1 hadd1
        obtain ⟨ht1, _⟩ := addCol_ok hadd1
        obtain ⟨ht', _⟩ := addCol_ok h
        subst ht1
        refine ⟨cd, cra, cdec, dates, ras, decs, hd, hra, hdec, hdt, hqa,
          hqd, ?_⟩
        rw [ht']
        simp
    · cases h
    · cases h
    · cases h
  · cases h

/-! ## C9: the moon columns -/

lemma moonStep_ok_eq {Q : Type} (ext : ExternalFns Q) (t : Table Q)
    (cd cra cdec : MCol Q) (dates : List Int) (ras decs : List Q)
    (hd : t.getCol "datetime" = some cd)
    (hra : t.getCol "RA" = some cra)
    (hdec : t.getCol "DEC" = some cdec)
    (hdt : extractT cd.vals = .ok dates)
    (hqa : extractQ cra.vals = .ok ras)
    (hqd : extractQ cdec.vals = .ok decs)
    (hns : t.hasCol "moon_sep" = false)
    (hnp : t.hasCol "moon_phase" = false) :
    moonStep ext t = .ok ⟨t.cols ++
      [⟨"moon_sep", none, (zip3With (fun d a b =>
          (ext.moon d (ext.rad a) (ext.rad b)).2.1) dates ras
          decs).map MVal.q⟩,
       ⟨"moon_phase", none, (zip3With (fun d a b =>
          (ext.moon d (ext.rad a) (ext.rad b)).2.2) dates ras
          decs).map MVal.q⟩]⟩ := by
  simp only [moonStep, hd, hra, hdec, hdt, hqa, hqd, Table.addCol,
    hasCol_append_single, hns, hnp, Bool.false_eq_true, if_false,
    Bool.false_or]
  simp

lemma convert_true_after_false {Q : Type} [Mul Q] [Add Q]
    (ext : ExternalFns Q) (t base : Table Q)
    (h : convert_horizons_table ext t false = (.ok base, base)) :
    convert_horizons_table ext t true =
      match moonStep ext base with
      | .error e => (.error e, base)
      | .ok t5 => (.ok t5, t5) := by
  unfold convert_horizons_table at h ⊢
  rcases hcb : convertBase ext t with ⟨r, st⟩
  rw [hcb] at h
  cases r with
  | error e => simp at h
  | ok t4 =>
    simp only [Bool.false_eq_true, if_false] at h
    have h4 : t4 = base := by
      simpa using congrArg Prod.fst h
    subst h4
    cases hms : moonStep ext t4 <;> simp [hms]

/-- C9: when the shaping succeeds without the moon option, running it
with include_moon set appends exactly the two columns moon_sep and
moon_phase at the end of the shaped table: for every row, calc_moon_sep
is applied to the row timestamp and the RA and Dec converted to radians,
its first returned component (the Moon altitude) is discarded, and the
separation and phase components become the new cells; both new columns
have one value per row.  calc_moon_sep itself is not in src/ and is
modelled from the spec as the external function ext.moon. -/
theorem convert_horizons_table_moon_columns {Q : Type} [Mul Q] [Add Q]
    (ext : ExternalFns Q) (t base : Table Q) (n : Nat)
    (cd cra cdec : MCol Q) (dates : List Int) (ras decs : List Q)
    (hbase : convert_horizons_table ext t false = (.ok base, base))
    (hd : base.getCol "datetime" = some cd)
    (hra : base.getCol "RA" = some cra)
    (hdec : base.getCol "DEC" = some cdec)
    (hdt : extractT cd.vals = .ok dates)
    (hqa : extractQ cra.vals = .ok ras)
    (hqd : extractQ cdec.vals = .ok decs)
    (hns : base.hasCol "moon_sep" = false)
    (hnp : base.hasCol "moon_phase" = false)
    (hlen : ∀ c ∈ base.cols, c.vals.length = n) :
    convert_horizons_table ext t true =
      (.ok ⟨base.cols ++
        [⟨"moon_sep", none, (zip3With (fun d a b =>
            (ext.moon d (ext.rad a) (ext.rad b)).2.1) dates ras
            decs).map MVal.q⟩,
         ⟨"moon_phase", none, (zip3With (fun d a b =>
            (ext.moon d (ext.rad a) (ext.rad b)).2.2) dates ras
            decs).map MVal.q⟩]⟩,
       ⟨base.cols ++
        [⟨"moon_sep", none, (zip3With (fun d a b =>
            (ext.moon d (ext.rad a) (ext.rad b)).2.1) dates ras
            decs).map MVal.q⟩,
         ⟨"moon_phase", none, (zip3With (fun d a b =>
            (ext.moon d (ext.rad a) (ext.rad b)).2.2) dates ras
            decs).map MVal.q⟩]⟩) ∧
    (zip3With (fun d a b => (ext.moon d (ext.rad a) (ext.rad b)).2.1)
        dates ras decs).length = n ∧
    (zip3With (fun d a b => (ext.moon d (ext.rad a) (ext.rad b)).2.2)
        dates ras decs).length = n := by
  have hdl : dates.length = n := by
    have h1 := hlen cd (getCol_mem hd)
    have h2 := extractT_ok_eq cd.vals dates hdt
    rw [h2, List.length_map] at h1
    exact h1
  have hrl : ras.length = dates.length := by
    have h1 := hlen cra (getCol_mem hra)
    have h2 := extractQ_ok_eq cra.vals ras hqa
    rw [h2, List.length_map] at h1
    rw [h1, hdl]
  have hcl : decs.length = dates.length := by
    have h1 := hlen cdec (getCol_mem hdec)
    have h2 := extractQ_ok_eq cdec.vals decs hqd
    rw [h2, List.length_map] at h1
    rw [h1, hdl]
  have hms := moonStep_ok_eq ext base cd cra cdec dates ras decs hd hra
    hdec hdt hqa hqd hns hnp
  refine ⟨?_, ?_, ?_⟩
  · rw [convert_true_after_false ext t base hbase, hms]
  · rw [zip3With_length_eq _ dates ras decs hrl hcl]
    exact hdl
  · rw [zip3With_length_eq _ dates ras decs hrl hcl]
    exact hdl

/-- C9 witness: on the one-row table, shaping with include_moon appends
exactly the moon_sep and moon_phase columns computed from the row. -/
theorem convert_horizons_table_moon_columns_witness :
    convert_horizons_table extTriv tC10 true = (.ok outC9, outC9) := by
  have h := convert_horizons_table_moon_columns extTriv tC10 outC10 1
    ⟨"datetime", none, [.t (dateToMicros 2020 1 1 0 0)]⟩
    ⟨"RA", none, [.q 10]⟩ ⟨"DEC", none, [.q 20]⟩
    [dateToMicros 2020 1 1 0 0] [10] [20]
    (by decide) (by decide) (by decide) (by decide) (by decide)
    (by decide) (by decide) (by decide) (by decide) (by decide)
  rw [h.1]
  decide

/-! ## C10: the shaping only converts rates and appends columns -/

lemma addDatetime_getCol {Q : Type} (t : Table Q) (dates : List Int)
    {nm : String} {c : MCol Q} (hg : t.getCol nm = some c) :
    (addDatetime t dates).getCol nm = some c := by
  unfold addDatetime
  split
  · exact hg
  · exact getCol_append_left _ hg

lemma convertColUnit_getCol_ne {Q : Type} {ext : ExternalFns Q}
    {t t' : Table Q} {n target : String}
    (h : t.convertColUnit ext n target = .ok t') {nm : String} {c : MCol Q}
    (hne : nm ≠ n) (hg : t.getCol nm = some c) : t'.getCol nm = some c := by
  obtain ⟨c0, f0, _, _, ht'⟩ := convertColUnit_ok h
  have hcn : c.name = nm := getCol_name hg
  rw [ht']
  unfold Table.getCol at hg ⊢
  rw [find?_map_name _ (updateCol_name n target f0) nm, hg]
  rw [Option.map_some']
  rw [updateCol_of_ne target f0 (by rw [hcn]; exact hne)]

lemma convertColUnit_getCol_self {Q : Type} {ext : ExternalFns Q}
    {t t' : Table Q} {n target : String} {c : MCol Q} {f : Q → Q}
    (h : t.convertColUnit ext n target = .ok t')
    (hg : t.getCol n = some c)
    (hf : ext.rateScale c.unit target = some f) :
    t'.getCol n = some ⟨n, some target, c.vals.map (mapQ f)⟩ := by
  obtain ⟨c0, f0, hg0, hf0, ht'⟩ := convertColUnit_ok h
  have hc0 : c0 = c := by
    rw [hg] at hg0
    injection hg0 with hg0
    exact hg0.symm
  subst hc0
  have hf0' : f0 = f := by
    rw [hf] at hf0
    injection hf0 with hf0
    exact hf0.symm
  subst hf0'
  have hcn : c0.name = n := getCol_name hg
  rw [ht']
  unfold Table.getCol at hg ⊢
  rw [find?_map_name _ (updateCol_name n target f0) n, hg]
  rw [Option.map_some']
  unfold updateCol
  rw [if_pos hcn, hcn]

lemma convertColUnit_names {Q : Type} {ext : ExternalFns Q}
    {t t' : Table Q} {n target : String}
    (h : t.convertColUnit ext n target = .ok t') :
    t'.cols.map MCol.name = t.cols.map MCol.name := by
  obtain ⟨c0, f0, _, _, ht'⟩ := convertColUnit_ok h
  rw [ht']
  exact map_name_of_update _ (updateCol_name n target f0) t.cols

lemma convertColUnit_lengths {Q : Type} {ext : ExternalFns Q}
    {t t' : Table Q} {n target : String} {m : Nat}
    (h : t.convertColUnit ext n target = .ok t')
    (hlen : ∀ c ∈ t.cols, c.vals.length = m) :
    ∀ c ∈ t'.cols, c.vals.length = m := by
  obtain ⟨c0, f0, _, _, ht'⟩ := convertColUnit_ok h
  rw [ht']
  intro c hc
  obtain ⟨c1, hc1, rfl⟩ := List.mem_map.mp hc
  rw [updateCol_vals_length]
  exact hlen c1 hc1

lemma convertBase_frame {Q : Type} [Mul Q] [Add Q] {ext : ExternalFns Q}
    {t t4 st : Table Q} {n : Nat} {cra cdec : MCol Q} {f : Q → Q}
    (h : convertBase ext t = (.ok t4, st))
    (hnodup : (t.cols.map MCol.name).Nodup)
    (hlen : ∀ c ∈ t.cols, c.vals.length = n)
    (hra : t.getCol "RA_rate" = some cra)
    (hdec : t.getCol "DEC_rate" = some cdec)
    (hua : cra.unit = some "arcsec / h")
    (hud : cdec.unit = some "arcsec / h")
    (hf : ext.rateScale (some "arcsec / h") "arcsec / min" = some f) :
    (t4.cols.map MCol.name = t.cols.map MCol.name
        ++ (if t.hasCol "datetime" then [] else ["datetime"])
        ++ ["mean_rate"]) ∧
    (∀ c ∈ t.cols, c.name ≠ "RA_rate" → c.name ≠ "DEC_rate" →
        t4.getCol c.name = some c) ∧
    (t4.getCol "RA_rate"
        = some ⟨"RA_rate", some "arcsec / min", cra.vals.map (mapQ f)⟩) ∧
    (t4.getCol "DEC_rate"
        = some ⟨"DEC_rate", some "arcsec / min", cdec.vals.map (mapQ f)⟩) ∧
    (∀ c ∈ t4.cols, c.vals.length = n) := by
  obtain ⟨hst, cds, dates, t2, t3, cra3, cdec3, ras, decs, hcds, hdates,
    ht2, ht3, hra3, hdec3, hras, hdecs, ht4⟩ := convertBase_ok h
  have hdl : dates.length = n := by
    have h1 := hlen cds (getCol_mem hcds)
    have h2 := parseDates_ok_length cds.vals dates hdates
    rw [h2]
    exact h1
  -- the state after the optional datetime column is added
  have ht1names : (addDatetime t dates).cols.map MCol.name
      = t.cols.map MCol.name
        ++ (if t.hasCol "datetime" then [] else ["datetime"]) := by
    unfold addDatetime
    split
    · simp
    · simp
  have ht1len : ∀ c ∈ (addDatetime t dates).cols, c.vals.length = n := by
    intro c hcm
    unfold addDatetime at hcm
    split at hcm
    · exact hlen c hcm
    · rcases List.mem_append.mp hcm with hm | hm
      · exact hlen c hm
      · rw [List.mem_singleton.mp hm]
        simp [hdl]
  -- the two rate conversions
  have ht1ra : (addDatetime t dates).getCol "RA_rate" = some cra :=
    addDatetime_getCol t dates hra
  have ht1dec : (addDatetime t dates).getCol "DEC_rate" = some cdec :=
    addDatetime_getCol t dates hdec
  have ht2ra : t2.getCol "RA_rate"
      = some ⟨"RA_rate", some "arcsec / min", cra.vals.map (mapQ f)⟩ :=
    convertColUnit_getCol_self ht2 ht1ra (by rw [hua]; exact hf)
  have ht2dec : t2.getCol "DEC_rate" = some cdec :=
    convertColUnit_getCol_ne ht2 (by decide) ht1dec
  have ht3dec : t3.getCol "DEC_rate"
      = some ⟨"DEC_rate", some "arcsec / min", cdec.vals.map (mapQ f)⟩ :=
    convertColUnit_getCol_self ht3 ht2dec (by rw [hud]; exact hf)
  have ht3ra : t3.getCol "RA_rate"
      = some ⟨"RA_rate", some "arcsec / min", cra.vals.map (mapQ f)⟩ :=
    convertColUnit_getCol_ne ht3 (by decide) ht2ra
  have ht3names : t3.cols.map MCol.name
      = t.cols.map MCol.name
        ++ (if t.hasCol "datetime" then [] else ["datetime"]) := by
    rw [convertColUnit_names ht3, convertColUnit_names ht2, ht1names]
  have ht3len : ∀ c ∈ t3.cols, c.vals.length = n :=
    convertColUnit_lengths ht3 (convertColUnit_lengths ht2 ht1len)
  -- the appended mean_rate column
  obtain ⟨ht4eq, _⟩ := addCol_ok ht4
  have hraslen : ras.length = n := by
    have h1 := ht3len cra3 (getCol_mem hra3)
    have h2 := extractQ_ok_eq cra3.vals ras hras
    rw [h2, List.length_map] at h1
    exact h1
  have hdecslen : decs.length = n := by
    have h1 := ht3len cdec3 (getCol_mem hdec3)
    have h2 := extractQ_ok_eq cdec3.vals decs hdecs
    rw [h2, List.length_map] at h1
    exact h1
  refine ⟨?_, ?_, ?_, ?_, ?_⟩
  · rw [ht4eq]
    simp only [List.map_append]
    rw [ht3names]
    simp
  · intro c hc h1 h2
    have hfound : t.getCol c.name = some c := by
      unfold Table.getCol
      exact find?_name_eq_of_nodup hc hnodup
    have ht1c : (addDatetime t dates).getCol c.name = some c :=
      addDatetime_getCol t dates hfound
    have ht2c : t2.getCol c.name = some c :=
      convertColUnit_getCol_ne ht2 h1 ht1c
    have ht3c : t3.getCol c.name = some c :=
      convertColUnit_getCol_ne ht3 h2 ht2c
    rw [ht4eq]
    exact getCol_append_left _ ht3c
  · rw [ht4eq]
    exact getCol_append_left _ ht3ra
  · rw [ht4eq]
    exact getCol_append_left _ ht3dec
  · intro c hc
    rw [ht4eq] at hc
    rcases List.mem_append.mp hc with hm | hm
    · exact ht3len c hm
    · rw [List.mem_singleton.mp hm]
      simp [List.length_zipWith, hraslen, hdecslen]

/-- C10: for every well-formed input table (uniquely named columns, n
values per column, rate columns present in arcsec/h) on which the
shaping succeeds, the output leaves every pre-existing column untouched
except RA_rate and DEC_rate, which are only rescaled cellwise by the
arcsec/h to arcsec/min unit ratio and relabelled arcsec/min; no column
is removed or renamed, the only additions are datetime (when absent),
mean_rate, and with include_moon the moon_sep and moon_phase columns,
appended in that order at the end; and every output column still has n
values, preserving row count and row order. -/
theorem convert_horizons_table_frame {Q : Type} [Mul Q] [Add Q]
    (ext : ExternalFns Q) (t out : Table Q) (includeMoon : Bool) (n : Nat)
    (cra cdec : MCol Q) (f : Q → Q)
    (hok : convert_horizons_table ext t includeMoon = (.ok out, out))
    (hnodup : (t.cols.map MCol.name).Nodup)
    (hlen : ∀ c ∈ t.cols, c.vals.length = n)
    (hra : t.getCol "RA_rate" = some cra)
    (hdec : t.getCol "DEC_rate" = some cdec)
    (hua : cra.unit = some "arcsec / h")
    (hud : cdec.unit = some "arcsec / h")
    (hf : ext.rateScale (some "arcsec / h") "arcsec / min" = some f) :
    (out.cols.map MCol.name = t.cols.map MCol.name
        ++ (if t.hasCol "datetime" then [] else ["datetime"])
        ++ ["mean_rate"]
        ++ (if includeMoon then ["moon_sep", "moon_phase"] else [])) ∧
    (∀ c ∈ t.cols, c.name ≠ "RA_rate" → c.name ≠ "DEC_rate" →
        out.getCol c.name = some c) ∧
    (out.getCol "RA_rate"
        = some ⟨"RA_rate", some "arcsec / min", cra.vals.map (mapQ f)⟩) ∧
    (out.getCol "DEC_rate"
        = some ⟨"DEC_rate", some "arcsec / min", cdec.vals.map (mapQ f)⟩) ∧
    (∀ c ∈ out.cols, c.vals.length = n) := by
  unfold convert_horizons_table at hok
  rcases hcb : convertBase ext t with ⟨r, st⟩
  rw [hcb] at hok
  cases r with
  | error e => simp at hok
  | ok t4 =>
    have hframe := convertBase_frame hcb hnodup hlen hra hdec hua hud hf
    cases includeMoon with
    | false =>
      have h4 : t4 = out := by
        simpa using congrArg Prod.fst hok
      subst h4
      refine ⟨?_, hframe.2.1, hframe.2.2.1, hframe.2.2.2.1,
        hframe.2.2.2.2⟩
      rw [hframe.1]
      simp
    | true =>
      simp only [if_true] at hok
      cases hms : moonStep ext t4 with
      | error e => rw [hms] at hok; simp at hok
      | ok t5 =>
        rw [hms] at hok
        have h5 : t5 = out := by
          simpa using congrArg Prod.fst hok
        subst h5
        obtain ⟨cd, mra, mdec, dates, ras, decs, hd, hraM, hdecM, hdt,
          hqa, hqd, hshape⟩ := moonStep_ok_shape hms
        have hdl : dates.length = n := by
          have h1 := hframe.2.2.2.2 cd (getCol_mem hd)
          have h2 := extractT_ok_eq cd.vals dates hdt
          rw [h2, List.length_map] at h1
          exact h1
        have hrl : ras.length = dates.length := by
          have h1 := hframe.2.2.2.2 mra (getCol_mem hraM)
          have h2 := extractQ_ok_eq mra.vals ras hqa
          rw [h2, List.length_map] at h1
          rw [h1, hdl]
        have hcl : decs.length = dates.length := by
          have h1 := hframe.2.2.2.2 mdec (getCol_mem hdecM)
          have h2 := extractQ_ok_eq mdec.vals decs hqd
          rw [h2, List.length_map] at h1
          rw [h1, hdl]
        refine ⟨?_, ?_, ?_, ?_, ?_⟩
        · rw [hshape]
          simp only [List.map_append]
          rw [hframe.1]
          simp
        · intro c hc h1 h2
          rw [hshape]
          exact getCol_append_left _ (hframe.2.1 c hc h1 h2)
        · rw [hshape]
          exact getCol_append_left _ hframe.2.2.1
        · rw [hshape]
          exact getCol_append_left _ hframe.2.2.2.1
        · intro c hc
          rw [hshape] at hc
          rcases List.mem_append.mp hc with hm | hm
          · exact hframe.2.2.2.2 c hm
          · rcases List.mem_cons.mp hm with rfl | hm1
            · simp only [List.length_map]
              rw [zip3With_length_eq _ dates ras decs hrl hcl]
              exact hdl
            · rcases List.mem_cons.mp hm1 with rfl | hm2
              · simp only [List.length_map]
                rw [zip3With_length_eq _ dates ras decs hrl hcl]
                exact hdl
              · simp at hm2

/-- C10 witness: on the one-row table tC10 the shaped output keeps every
column except the rescaled rate columns, appends datetime and mean_rate,
and every column has one value. -/
theorem convert_horizons_table_frame_witness :
    convert_horizons_table extTriv tC10 false = (.ok outC10, outC10) ∧
    outC10.getCol "RA" = some ⟨"RA", none, [.q 10]⟩ ∧
    outC10.getCol "RA_rate"
      = some ⟨"RA_rate", some "arcsec / min", [.q 60]⟩ ∧
    (∀ c ∈ outC10.cols, c.vals.length = 1) := by
  have h := convert_horizons_table_frame extTriv tC10 outC10 false 1
    ⟨"RA_rate", some "arcsec / h", [.q 60]⟩
    ⟨"DEC_rate", some "arcsec / h", [.q 2]⟩ (fun x => x)
    (by decide) (by decide) (by decide) (by decide) (by decide)
    (by decide) (by decide) rfl
  exact ⟨by decide,
    h.2.1 ⟨"RA", none, [.q 10]⟩ (by decide) (by decide) (by decide),
    h.2.2.1, h.2.2.2.2⟩

end Horizons
